import Mathlib

/-!
Verification development for the handwriting-decoding trial extraction and
normalization pipeline.  The definitions below are a shallow embedding of
`src/classify_characters_logistic_regression.py` (function `organize_data` and
the label maps) and of the windowing / z-scoring part of
`src/visualize_characters.py` (function `prepare_data`).

Modelling conventions:
* numpy float arrays are modelled as lists of rationals; the IEEE-754
  non-finite values produced by division by a zero standard deviation are
  modelled explicitly by the type `NPVal` (finite / nan / +inf / -inf), so the
  `np.errstate(...)` division and `np.nan_to_num` lines are represented
  faithfully.  Rounding of finite arithmetic is idealized to exact rational
  arithmetic; `np.std`'s square root is an explicit function parameter
  `sqrtFn`, with the IEEE facts that are needed (`sqrt 0 = 0`,
  `sqrt positive > 0`) taken as hypotheses where a theorem depends on them.
* Python list slicing `l[a:b]` (which clamps at the ends and never fails) is
  `pySlice` / `pySliceInt`.
* `random.shuffle` of `list(range(n))` is modelled by passing the resulting
  permutation in explicitly: `shuffles` gives, per session and per block (in
  processing order), the list that the shuffle produced.  The code keeps no
  other random state.
* `int(num_trials_in_block * 0.6)` is modelled as `n * 6 / 10` in `Nat`;
  the two agree for every block size below 2000 (checked exhaustively for the
  IEEE double 0.6).
* the three output sets are modelled as lists of `TrialEntry` records; the
  code's parallel lists `X_train`/`y_train` etc. are the `window`/`label`
  projections of these lists, and the provenance fields (session index, block
  number, in-block trial index) record which trial each entry came from.
  The final Gaussian smoothing and integer label-encoding steps of
  `organize_data` are shape- and membership-preserving post-passes and are
  not needed by the claims below; the label encoding itself is embedded
  separately as `CHAR_TO_CLASS_MAP` / `CLASS_TO_CHAR_MAP`.
-/

/-- NPVal models an IEEE-754 double as produced by the numpy operations used in
the pipeline: a finite value (idealized as a rational) or one of the
non-finite values nan, +inf, -inf. -/
inductive NPVal where
  | fin (q : ℚ)
  | nan
  | posinf
  | neginf
deriving DecidableEq, Repr

/-- Subtraction on NPVal, following IEEE-754 (numpy broadcasting `a - b`). -/
def npSub : NPVal → NPVal → NPVal
  | .nan, _ => .nan
  | _, .nan => .nan
  | .fin a, .fin b => .fin (a - b)
  | .fin _, .posinf => .neginf
  | .fin _, .neginf => .posinf
  | .posinf, .fin _ => .posinf
  | .posinf, .posinf => .nan
  | .posinf, .neginf => .posinf
  | .neginf, .fin _ => .neginf
  | .neginf, .posinf => .neginf
  | .neginf, .neginf => .nan

/-- Division on NPVal, following IEEE-754 with numpy's `errstate(divide,
invalid = ignore)`: `x / 0` is nan when `x = 0` and a signed infinity
otherwise (the divisor `0` is numpy's +0.0 here, coming from `np.std`).
Signed zeros of `x / inf` are collapsed to `0`. -/
def npDiv : NPVal → NPVal → NPVal
  | .nan, _ => .nan
  | _, .nan => .nan
  | .fin a, .fin b =>
      if b = 0 then (if a = 0 then .nan else if 0 < a then .posinf else .neginf)
      else .fin (a / b)
  | .fin _, .posinf => .fin 0
  | .fin _, .neginf => .fin 0
  | .posinf, .fin b => if 0 ≤ b then .posinf else .neginf
  | .neginf, .fin b => if 0 ≤ b then .neginf else .posinf
  | .posinf, .posinf => .nan
  | .posinf, .neginf => .nan
  | .neginf, .posinf => .nan
  | .neginf, .neginf => .nan

/-- Model of `np.nan_to_num(x, nan=0, posinf=0, neginf=0)`
(`classify_characters_logistic_regression.py` lines 198-200,
`visualize_characters.py` lines 156-158): non-finite values become 0,
finite values are unchanged. -/
def nanToNum : NPVal → ℚ
  | .fin q => q
  | .nan => 0
  | .posinf => 0
  | .neginf => 0

/-- Python list slice `l[a:b]` for nonnegative bounds: clamps at the end of
the list and never fails. -/
def pySlice (l : List α) (a b : Nat) : List α :=
  (l.drop a).take (b - a)

/-- Python list slice `l[a:b]` with possibly negative bounds: a negative
index counts from the end of the list (clamped at 0), as in CPython. -/
def pySliceInt (l : List α) (a b : Int) : List α :=
  let n : Int := l.length
  let a' : Int := if a < 0 then max (n + a) 0 else a
  let b' : Int := if b < 0 then max (n + b) 0 else b
  pySlice l a'.toNat b'.toNat

/-- REACTION_TIME_BINS constant of `classify_characters_logistic_regression.py`. -/
def REACTION_TIME_BINS : Nat := 10

/-- TRAINING_WINDOW_BINS constant of `classify_characters_logistic_regression.py`. -/
def TRAINING_WINDOW_BINS : Nat := 150

/-- PRE_GO_CUE_BINS constant of `visualize_characters.py`. -/
def PRE_GO_CUE_BINS : Nat := 50

/-- POST_GO_CUE_BINS constant of `visualize_characters.py`. -/
def POST_GO_CUE_BINS : Nat := 120

/-- Column `c` of a reference sample matrix (rows are time bins). -/
def colQ (ref : List (List ℚ)) (c : Nat) : List ℚ :=
  ref.map (fun row => row.getD c 0)

/-- Exact per-channel mean of a nonempty reference window
(`np.mean(neural_to_zscore_based_on, axis=0)`). -/
def meanQ (ref : List (List ℚ)) (c : Nat) : ℚ :=
  (colQ ref c).sum / ref.length

/-- Exact per-channel population variance of a reference window; `np.std` is
the square root of this (ddof = 0). -/
def varQ (ref : List (List ℚ)) (c : Nat) : ℚ :=
  ((colQ ref c).map (fun x => (x - meanQ ref c) ^ 2)).sum / ref.length

/-- Per-channel mean as an NPVal: `np.mean` of an empty array is nan
(this happens when the reference accumulation collected no samples). -/
def npMean (ref : List (List ℚ)) (c : Nat) : NPVal :=
  if ref.length = 0 then .nan else .fin (meanQ ref c)

/-- Per-channel standard deviation as an NPVal: square root (the rounded
IEEE square root, abstracted as `sqrtFn`) of the variance; nan for an empty
reference window, as `np.std` of an empty array is. -/
def npStd (sqrtFn : ℚ → ℚ) (ref : List (List ℚ)) (c : Nat) : NPVal :=
  if ref.length = 0 then .nan else .fin (sqrtFn (varQ ref c))

/-- Z-score a single sample: `(sample - mean) / stddev` followed by
`np.nan_to_num`, exactly the two statements at
`classify_characters_logistic_regression.py` lines 196-200. -/
def zscoreVal (m s : NPVal) (x : ℚ) : ℚ :=
  nanToNum (npDiv (npSub (.fin x) m) s)

/-- Z-score one time bin (row) against per-channel means and stddevs. -/
def zscoreRow (means stds : Nat → NPVal) (row : List ℚ) : List ℚ :=
  (List.range row.length).map (fun c => zscoreVal (means c) (stds c) (row.getD c 0))

/-- Z-score a whole sample matrix elementwise (numpy broadcasting). -/
def zscoreWindow (means stds : Nat → NPVal) (w : List (List ℚ)) : List (List ℚ) :=
  w.map (zscoreRow means stds)

/-- Fixed-length classification window of
`classify_characters_logistic_regression.py` lines 190-194: bins
`[go_cue + REACTION_TIME_BINS, go_cue + REACTION_TIME_BINS + TRAINING_WINDOW_BINS)`. -/
def classifyWindow (neural : List (List ℚ)) (goCue : Nat) : List (List ℚ) :=
  pySlice neural (goCue + REACTION_TIME_BINS)
    (goCue + REACTION_TIME_BINS + TRAINING_WINDOW_BINS)

/-- Cue-centered window of `visualize_characters.py` lines 172-176: bins
`[go_cue - PRE_GO_CUE_BINS, go_cue + POST_GO_CUE_BINS)` with Python slice
semantics (a negative start counts from the end of the array). -/
def visualizeWindow (z : List (List ℚ)) (goCue : Nat) : List (List ℚ) :=
  pySliceInt z ((goCue : Int) - (PRE_GO_CUE_BINS : Int)) ((goCue : Int) + (POST_GO_CUE_BINS : Int))

/-- ALL_CHARS of `classify_characters_logistic_regression.py` lines 22-29:
the 26 lowercase letters followed by the five named punctuation tokens.
The rest token `doNothing` is not in this variant. -/
def ALL_CHARS : List String :=
  ["a", "b", "c", "d", "e", "f", "g", "h", "i", "j", "k", "l", "m",
   "n", "o", "p", "q", "r", "s", "t", "u", "v", "w", "x", "y", "z",
   "greaterThan", "tilde", "questionMark", "apostrophe", "comma"]

/-- ALL_CHARS of `visualize_characters.py` lines 21-29: the rest token
`doNothing` first, then the same enumeration as the classification variant. -/
def ALL_CHARS_WITH_REST : List String :=
  "doNothing" :: ALL_CHARS

/-- CHAR_TO_CLASS_MAP: `{char: idx for idx, char in enumerate(chars)}`,
as a partial function; a label outside the enumeration has no class
(the Python dict lookup raises KeyError). -/
def CHAR_TO_CLASS_MAP : List String → String → Option Nat
  | [], _ => none
  | c :: cs, x => if x = c then some 0 else (CHAR_TO_CLASS_MAP cs x).map (· + 1)

/-- CLASS_TO_CHAR_MAP: `{idx: char for idx, char in enumerate(chars)}`. -/
def CLASS_TO_CHAR_MAP (chars : List String) (i : Nat) : Option String :=
  chars.get? i

/-- SessionData embeds one loaded `.mat` session dict, after the `.ravel()` /
`astype(int)` coercions at `classify_characters_logistic_regression.py`
lines 154-159: `neural` is `neuralActivityTimeSeries` (time bins x channels),
the cue arrays hold one bin index per trial, `prompts` one label per trial,
`blockByBin` one block id per time bin, `blockList` the session's block ids. -/
structure SessionData where
  neural : List (List ℚ)
  goCueBins : List Nat
  delayCueBins : List Nat
  prompts : List String
  blockByBin : List Nat
  blockList : List Nat
deriving Repr

/-- TrialEntry is one appended element of an output set: the z-scored window,
its label (the code's parallel `y` list), and the provenance of the trial
(session index, block number, in-block trial index). -/
structure TrialEntry where
  window : List (List ℚ)
  label : String
  sessionIdx : Nat
  blockNum : Nat
  trialIdx : Nat
deriving DecidableEq, Repr

/-- Provenance triple of an entry. -/
def trip (e : TrialEntry) : Nat × Nat × Nat :=
  (e.sessionIdx, e.blockNum, e.trialIdx)

/-- SplitState carries the three output sets and the two global per-label
balancing counters (`validation_count_by_char`, `test_count_by_char`,
`classify_characters_logistic_regression.py` lines 147-148). -/
structure SplitState where
  trainSet : List TrialEntry
  valSet : List TrialEntry
  testSet : List TrialEntry
  valCount : String → Nat
  testCount : String → Nat

/-- Empty initial state: empty sets, all counters zero (Counter semantics). -/
def initState : SplitState :=
  { trainSet := [], valSet := [], testSet := [], valCount := fun _ => 0, testCount := fun _ => 0 }

/-- All three output sets, concatenated. -/
def allSets (st : SplitState) : List TrialEntry :=
  st.trainSet ++ st.valSet ++ st.testSet

/-- Increment of a Counter at one key. -/
def bump (c : String → Nat) (L : String) : String → Nat :=
  fun x => if x = L then c x + 1 else c x

/-- BlockCtx packages the per-block data that the inner trial loop of
`organize_data` reads: the session's neural matrix, the block's z-scoring
statistics, provenance ids, the block's per-trial go-cue bins and prompts
(the masked arrays `block_go_cue_bins`, `block_prompts`), and the
train-designated trial indices. -/
structure BlockCtx where
  neural : List (List ℚ)
  means : Nat → NPVal
  stds : Nat → NPVal
  sessionIdx : Nat
  blockNum : Nat
  goBins : List Nat
  promptsB : List String
  trainIdxs : List Nat

/-- Label of the block's trial `i` (`block_prompts[trial_idx]`). -/
def trialLabel (ctx : BlockCtx) (i : Nat) : String :=
  ctx.promptsB.getD i ""

/-- The entry that trial `i` of a block would contribute: its z-scored
fixed-length window and its provenance.  This is the `trial_zscored_neural`
of `classify_characters_logistic_regression.py` lines 190-200. -/
def mkEntry (ctx : BlockCtx) (i : Nat) : TrialEntry :=
  { window := zscoreWindow ctx.means ctx.stds (classifyWindow ctx.neural (ctx.goBins.getD i 0)),
    label := trialLabel ctx i,
    sessionIdx := ctx.sessionIdx,
    blockNum := ctx.blockNum,
    trialIdx := i }

/-- Body of the per-trial loop of `organize_data`
(`classify_characters_logistic_regression.py` lines 188-227): window and
z-score the trial, skip rest trials, then append to train if the index was
shuffle-designated, else to validation when its label's validation count is
strictly smaller than its test count, else to test (bumping that counter). -/
def processTrial (ctx : BlockCtx) (st : SplitState) (i : Nat) : SplitState :=
  if trialLabel ctx i = "doNothing" then st
  else if i ∈ ctx.trainIdxs then
    { st with trainSet := st.trainSet ++ [mkEntry ctx i] }
  else if st.valCount (trialLabel ctx i) < st.testCount (trialLabel ctx i) then
    { st with valSet := st.valSet ++ [mkEntry ctx i],
              valCount := bump st.valCount (trialLabel ctx i) }
  else
    { st with testSet := st.testSet ++ [mkEntry ctx i],
              testCount := bump st.testCount (trialLabel ctx i) }

/-- Indices (in session trial order) of the trials whose go-cue bin lies in
block `b`: the `block_trial_mask` of line 165. -/
def blockTrials (sd : SessionData) (b : Nat) : List Nat :=
  (List.range sd.goCueBins.length).filter
    (fun t => sd.blockByBin.getD (sd.goCueBins.getD t 0) 0 = b)

/-- Number of trials in block `b` (`num_trials_in_block`). -/
def numTrialsInBlock (sd : SessionData) (b : Nat) : Nat :=
  (blockTrials sd b).length

/-- The block's go-cue bins in trial order (`block_go_cue_bins`). -/
def blockGo (sd : SessionData) (b : Nat) : List Nat :=
  (blockTrials sd b).map (fun t => sd.goCueBins.getD t 0)

/-- The block's delay-cue bins in trial order (`block_delay_cue_bins`). -/
def blockDelay (sd : SessionData) (b : Nat) : List Nat :=
  (blockTrials sd b).map (fun t => sd.delayCueBins.getD t 0)

/-- The block's labels in trial order (`block_prompts`). -/
def blockPrompts (sd : SessionData) (b : Nat) : List String :=
  (blockTrials sd b).map (fun t => sd.prompts.getD t "")

/-- Label of trial `i` (in-block order) of block `b`. -/
def blockLabel (sd : SessionData) (b i : Nat) : String :=
  (blockPrompts sd b).getD i ""

/-- Train-designated trial indices: the first `int(n * 0.6)` entries of the
shuffled index list (lines 167-170).  `shuffled` is the permutation that
`random.shuffle` produced. -/
def trainTrialIdxs (sd : SessionData) (b : Nat) (shuffled : List Nat) : List Nat :=
  shuffled.take (numTrialsInBlock sd b * 6 / 10)

/-- Samples one selected trial contributes to the reference accumulation
(lines 177-182): nothing for the last trial of the block, otherwise the
session bins from this trial's delay cue up to the next trial's delay cue. -/
def trialRefContribution (neural : List (List ℚ)) (bd : List Nat) (i : Nat) :
    List (List ℚ) :=
  if bd.length ≤ i + 1 then []
  else pySlice neural (bd.getD i 0) (bd.getD (i + 1) 0)

/-- The block's reference window `neural_to_zscore_based_on` (lines 175-183):
the concatenated contributions of the train-designated trials, in shuffle
order. -/
def blockReference (sd : SessionData) (b : Nat) (shuffled : List Nat) :
    List (List ℚ) :=
  ((trainTrialIdxs sd b shuffled).map
    (trialRefContribution sd.neural (blockDelay sd b))).flatten

/-- The per-block context assembled by `organize_data` before its trial loop. -/
def blockCtx (sqrtFn : ℚ → ℚ) (sd : SessionData) (si b : Nat)
    (shuffled : List Nat) : BlockCtx :=
  { neural := sd.neural,
    means := npMean (blockReference sd b shuffled),
    stds := npStd sqrtFn (blockReference sd b shuffled),
    sessionIdx := si,
    blockNum := b,
    goBins := blockGo sd b,
    promptsB := blockPrompts sd b,
    trainIdxs := trainTrialIdxs sd b shuffled }

/-- One block of `organize_data`: run the trial loop over
`range(num_trials_in_block)`. -/
def processBlock (sqrtFn : ℚ → ℚ) (sd : SessionData) (si b : Nat)
    (shuffled : List Nat) (st : SplitState) : SplitState :=
  (List.range (numTrialsInBlock sd b)).foldl
    (processTrial (blockCtx sqrtFn sd si b shuffled)) st

/-- The block loop of one session (`for block_num in block_nums`), consuming
one shuffle outcome per block. -/
def processBlocks (sqrtFn : ℚ → ℚ) (sd : SessionData) (si : Nat) :
    List Nat → List (List Nat) → SplitState → SplitState
  | [], _, st => st
  | b :: bs, shs, st =>
      processBlocks sqrtFn sd si bs shs.tail
        (processBlock sqrtFn sd si b (shs.headD []) st)

/-- The session loop of `organize_data` (`for data_dict in data_dicts`),
numbering sessions from `k`. -/
def processSessions (sqrtFn : ℚ → ℚ) :
    List SessionData → List (List (List Nat)) → Nat → SplitState → SplitState
  | [], _, _, st => st
  | sd :: rest, shs, k, st =>
      processSessions sqrtFn rest shs.tail (k + 1)
        (processBlocks sqrtFn sd k sd.blockList (shs.headD []) st)

/-- The `organize_data` pipeline of
`classify_characters_logistic_regression.py` (lines 135-227), with the
square-root rounding of `np.std` and the shuffle outcomes passed explicitly
(see the module docstring).  Produces the three trial sets and the final
balancing counters; the subsequent smoothing and label-encoding passes do not
change which trial went to which set. -/
def organize_data (sqrtFn : ℚ → ℚ) (sessions : List SessionData)
    (shuffles : List (List (List Nat))) : SplitState :=
  processSessions sqrtFn sessions shuffles 0 initState

/-- Number of entries across the three output sets whose provenance triple is
`p`. -/
def tripCount (st : SplitState) (p : Nat × Nat × Nat) : Nat :=
  (allSets st).countP (fun e => trip e = p)

/-- Number of validation entries of block `(s, b)` carrying label `L`. -/
def fvCount (st : SplitState) (s b : Nat) (L : String) : Nat :=
  st.valSet.countP (fun e => e.sessionIdx = s ∧ e.blockNum = b ∧ e.label = L)

/-- Number of test entries of block `(s, b)` carrying label `L`. -/
def ftCount (st : SplitState) (s b : Nat) (L : String) : Nat :=
  st.testSet.countP (fun e => e.sessionIdx = s ∧ e.blockNum = b ∧ e.label = L)

/-- Counter invariant of the greedy splitter: for every label, the test count
is equal to or one ahead of the validation count (ties are sent to test, and
validation receives a trial only when strictly behind). -/
def cInv (st : SplitState) : Prop :=
  ∀ L, st.valCount L ≤ st.testCount L ∧ st.testCount L ≤ st.valCount L + 1

/-- Square-root stand-in for runs whose reference windows are empty or
constant (the square root is then only ever taken at 0, where IEEE-754 gives
exactly 0). -/
def sqrtZero : ℚ → ℚ := fun _ => 0

/-- Square-root stand-in agreeing with the IEEE square root at the only two
values reached in the `sdC5` run: 0 and 1. -/
def sqrtC5 : ℚ → ℚ := fun q => if q = 1 then 1 else 0

/-- Concrete one-session input: 20 time bins of one channel, a single block 7,
and a single trial labeled "a" whose go cue sits at bin 5, so that its
training window `[15, 165)` extends 145 bins past the end of the recording. -/
def exData : SessionData :=
  { neural := List.replicate 20 [0],
    goCueBins := [5],
    delayCueBins := [5],
    prompts := ["a"],
    blockByBin := List.replicate 20 7,
    blockList := [7] }

/-- Concrete one-session input with two channels and two trials in block 7:
channel 0 is constant 5 over the whole recording (hence over the reference
window), channel 1 varies with variance exactly 1 over the reference window
(rows 0 and 1, values 0 and 2). -/
def sdC5 : SessionData :=
  { neural := (List.range 16).map
      (fun i => [5, if i = 0 then 0 else if i = 1 then 2 else (i : ℚ)]),
    goCueBins := [0, 1],
    delayCueBins := [0, 2],
    prompts := ["a", "b"],
    blockByBin := List.replicate 16 7,
    blockList := [7] }

/-- Reference window of block 7 of `sdC5` under the identity shuffle: the
bins `[0, 2)`, i.e. rows `[5, 0]` and `[5, 2]`. -/
def refC5 : List (List ℚ) :=
  blockReference sdC5 7 [0, 1]

/-- The train entry the `sdC5` run produces for trial 0: channel 0 (constant
5 in the reference window) z-scores to exactly 0 at every bin, channel 1 to
`(x - 1) / 1`. -/
def eC5 : TrialEntry :=
  { window := [[0, 9], [0, 10], [0, 11], [0, 12], [0, 13], [0, 14]],
    label := "a",
    sessionIdx := 0,
    blockNum := 7,
    trialIdx := 0 }

/-- The single (truncated-window) test entry of the `exData` run. -/
def eExcl : TrialEntry :=
  { window := List.replicate 5 [0],
    label := "a",
    sessionIdx := 0,
    blockNum := 7,
    trialIdx := 0 }

/-- Concrete block context whose single trial is a rest trial. -/
def ctxRest : BlockCtx :=
  { neural := List.replicate 20 [0],
    means := fun _ => .nan,
    stds := fun _ => .nan,
    sessionIdx := 0,
    blockNum := 7,
    goBins := [5],
    promptsB := ["doNothing"],
    trainIdxs := [] }

/-- Concrete block context whose single trial is labeled "a" and not
train-designated. -/
def ctxA : BlockCtx :=
  { neural := List.replicate 20 [0],
    means := fun _ => .nan,
    stds := fun _ => .nan,
    sessionIdx := 0,
    blockNum := 7,
    goBins := [5],
    promptsB := ["a"],
    trainIdxs := [] }

/-! Basic facts about the trial step. -/

lemma trip_mkEntry (ctx : BlockCtx) (i : Nat) :
    trip (mkEntry ctx i) = (ctx.sessionIdx, ctx.blockNum, i) := rfl

lemma processTrial_rest (ctx : BlockCtx) (st : SplitState) (i : Nat)
    (h : trialLabel ctx i = "doNothing") : processTrial ctx st i = st := by
  simp [processTrial, h]

lemma countP_snoc (l : List α) (a : α) (q : α → Bool) :
    (l ++ [a]).countP q = l.countP q + (if q a then 1 else 0) := by
  simp [List.countP_append, List.countP_cons]

lemma mem_allSets_processTrial {e : TrialEntry} (ctx : BlockCtx) (st : SplitState) (i : Nat) :
    e ∈ allSets (processTrial ctx st i) ↔
      e ∈ allSets st ∨ (trialLabel ctx i ≠ "doNothing" ∧ e = mkEntry ctx i) := by
  unfold processTrial
  by_cases h : trialLabel ctx i = "doNothing"
  · simp [h]
  · by_cases ht : i ∈ ctx.trainIdxs
    · simp only [if_neg h, if_pos ht]
      simp [allSets, h]
      tauto
    · by_cases hc : st.valCount (trialLabel ctx i) < st.testCount (trialLabel ctx i)
      · simp only [if_neg h, if_neg ht, if_pos hc]
        simp [allSets, h]
        tauto
      · simp only [if_neg h, if_neg ht, if_neg hc]
        simp [allSets, h]
        tauto

lemma tripCount_processTrial (ctx : BlockCtx) (st : SplitState) (i : Nat) (p : Nat × Nat × Nat) :
    tripCount (processTrial ctx st i) p =
      tripCount st p +
        (if trialLabel ctx i ≠ "doNothing" ∧ p = (ctx.sessionIdx, ctx.blockNum, i)
         then 1 else 0) := by
  unfold processTrial
  by_cases h : trialLabel ctx i = "doNothing"
  · simp [h]
  · by_cases hp : p = (ctx.sessionIdx, ctx.blockNum, i)
    · subst hp
      by_cases ht : i ∈ ctx.trainIdxs
      · simp only [if_neg h, if_pos ht]
        simp [tripCount, allSets, List.countP_append, List.countP_cons, trip_mkEntry, h]
        omega
      · by_cases hc : st.valCount (trialLabel ctx i) < st.testCount (trialLabel ctx i)
        · simp only [if_neg h, if_neg ht, if_pos hc]
          simp [tripCount, allSets, List.countP_append, List.countP_cons, trip_mkEntry, h]
          omega
        · simp only [if_neg h, if_neg ht, if_neg hc]
          simp [tripCount, allSets, List.countP_append, List.countP_cons, trip_mkEntry, h]
          omega
    · have hp2 : ¬((ctx.sessionIdx, ctx.blockNum, i) = p) := fun hq => hp hq.symm
      by_cases ht : i ∈ ctx.trainIdxs
      · simp only [if_neg h, if_pos ht]
        simp [tripCount, allSets, List.countP_append, List.countP_cons, trip_mkEntry, h, hp, hp2]
      · by_cases hc : st.valCount (trialLabel ctx i) < st.testCount (trialLabel ctx i)
        · simp only [if_neg h, if_neg ht, if_pos hc]
          simp [tripCount, allSets, List.countP_append, List.countP_cons, trip_mkEntry, h, hp, hp2]
        · simp only [if_neg h, if_neg ht, if_neg hc]
          simp [tripCount, allSets, List.countP_append, List.countP_cons, trip_mkEntry, h, hp, hp2]

/-! Lifting trial-step facts over the block's trial loop. -/

lemma mem_allSets_trialLoop {e : TrialEntry} (ctx : BlockCtx) :
    ∀ (n : Nat) (st : SplitState),
      e ∈ allSets ((List.range n).foldl (processTrial ctx) st) ↔
        e ∈ allSets st ∨ ∃ i, i < n ∧ trialLabel ctx i ≠ "doNothing" ∧ e = mkEntry ctx i := by
  intro n
  induction n with
  | zero => intro st; simp
  | succ n ih =>
    intro st
    rw [List.range_succ, List.foldl_append]
    simp only [List.foldl_cons, List.foldl_nil]
    rw [mem_allSets_processTrial, ih]
    constructor
    · rintro ((h | ⟨i, hi, h1, h2⟩) | ⟨h1, h2⟩)
      · exact Or.inl h
      · exact Or.inr ⟨i, Nat.lt_succ_of_lt hi, h1, h2⟩
      · exact Or.inr ⟨n, Nat.lt_succ_self n, h1, h2⟩
    · rintro (h | ⟨i, hi, h1, h2⟩)
      · exact Or.inl (Or.inl h)
      · rcases Nat.lt_succ_iff_lt_or_eq.mp hi with hi' | rfl
        · exact Or.inl (Or.inr ⟨i, hi', h1, h2⟩)
        · exact Or.inr ⟨h1, h2⟩

lemma tripCount_trialLoop (ctx : BlockCtx) (p : Nat × Nat × Nat) :
    ∀ (n : Nat) (st : SplitState),
      tripCount ((List.range n).foldl (processTrial ctx) st) p =
        tripCount st p +
          (if p.1 = ctx.sessionIdx ∧ p.2.1 = ctx.blockNum ∧ p.2.2 < n ∧
              trialLabel ctx p.2.2 ≠ "doNothing" then 1 else 0) := by
  intro n
  induction n with
  | zero => simp
  | succ n ih =>
    intro st
    rw [List.range_succ, List.foldl_append]
    simp only [List.foldl_cons, List.foldl_nil]
    rw [tripCount_processTrial, ih]
    rcases p with ⟨p1, p2, p3⟩
    simp only [Prod.mk.injEq]
    by_cases h1 : p1 = ctx.sessionIdx <;> by_cases h2 : p2 = ctx.blockNum <;>
      by_cases heq : p3 = n
    · rw [← heq]
      by_cases hl : trialLabel ctx p3 = "doNothing" <;>
        simp [h1, h2, hl, Nat.lt_irrefl, Nat.lt_succ_self]
    · by_cases hl : trialLabel ctx p3 = "doNothing"
      · simp [h1, h2, hl, heq]
      · by_cases hlt : p3 < n
        · have hlt1 : p3 < n + 1 := by omega
          simp [h1, h2, hl, heq, hlt, hlt1]
        · have hlt1 : ¬ p3 < n + 1 := by omega
          simp [h1, h2, hl, heq, hlt, hlt1]
    · simp [h1, h2]
    · simp [h1, h2]
    · simp [h1]
    · simp [h1]
    · simp [h1]
    · simp [h1]

/-! Lifting to whole blocks, block lists, and session lists. -/

lemma tail_getD {α : Type} (l : List α) (n : Nat) (d : α) :
    l.tail.getD n d = l.getD (n + 1) d := by
  cases l <;> simp [List.getD]

lemma headD_eq_getD {α : Type} (l : List α) (d : α) : l.headD d = l.getD 0 d := by
  cases l <;> simp

lemma trialLabel_blockCtx (sqrtFn : ℚ → ℚ) (sd : SessionData) (si b : Nat)
    (sh : List Nat) (i : Nat) :
    trialLabel (blockCtx sqrtFn sd si b sh) i = blockLabel sd b i := rfl

lemma mem_allSets_processBlock {e : TrialEntry} (sqrtFn : ℚ → ℚ) (sd : SessionData)
    (si b : Nat) (sh : List Nat) (st : SplitState) :
    e ∈ allSets (processBlock sqrtFn sd si b sh st) ↔
      e ∈ allSets st ∨ ∃ i, i < numTrialsInBlock sd b ∧ blockLabel sd b i ≠ "doNothing" ∧
        e = mkEntry (blockCtx sqrtFn sd si b sh) i := by
  unfold processBlock
  rw [mem_allSets_trialLoop]
  rfl

lemma tripCount_processBlock (sqrtFn : ℚ → ℚ) (sd : SessionData) (si b : Nat)
    (sh : List Nat) (st : SplitState) (p : Nat × Nat × Nat) :
    tripCount (processBlock sqrtFn sd si b sh st) p =
      tripCount st p +
        (if p.1 = si ∧ p.2.1 = b ∧ p.2.2 < numTrialsInBlock sd b ∧
            blockLabel sd b p.2.2 ≠ "doNothing" then 1 else 0) := by
  unfold processBlock
  rw [tripCount_trialLoop]
  rfl

lemma mem_allSets_processBlocks {e : TrialEntry} (sqrtFn : ℚ → ℚ) (sd : SessionData)
    (si : Nat) :
    ∀ (bs : List Nat) (shs : List (List Nat)) (st : SplitState),
      e ∈ allSets (processBlocks sqrtFn sd si bs shs st) ↔
        e ∈ allSets st ∨ ∃ bi b, bs.get? bi = some b ∧
          ∃ i, i < numTrialsInBlock sd b ∧ blockLabel sd b i ≠ "doNothing" ∧
            e = mkEntry (blockCtx sqrtFn sd si b (shs.getD bi [])) i := by
  intro bs
  induction bs with
  | nil => intro shs st; simp [processBlocks]
  | cons b bs ih =>
    intro shs st
    rw [processBlocks, ih, mem_allSets_processBlock]
    constructor
    · rintro ((h | ⟨i, hi, h1, h2⟩) | ⟨bi, b', hb, i, hi, h1, h2⟩)
      · exact Or.inl h
      · refine Or.inr ⟨0, b, rfl, i, hi, h1, ?_⟩
        rwa [headD_eq_getD] at h2
      · refine Or.inr ⟨bi + 1, b', ?_, i, hi, h1, ?_⟩
        · simpa using hb
        · rwa [tail_getD] at h2
    · rintro (h | ⟨bi, b', hb, i, hi, h1, h2⟩)
      · exact Or.inl (Or.inl h)
      · match bi, hb with
        | 0, hb =>
            have hbb : b' = b := by simpa using hb.symm
            subst hbb
            refine Or.inl (Or.inr ⟨i, hi, h1, ?_⟩)
            rwa [headD_eq_getD]
        | bi + 1, hb =>
            refine Or.inr ⟨bi, b', by simpa using hb, i, hi, h1, ?_⟩
            rw [tail_getD]
            exact h2

lemma tripCount_processBlocks_ne (sqrtFn : ℚ → ℚ) (sd : SessionData) (si : Nat)
    (p : Nat × Nat × Nat) (hne : p.1 ≠ si) :
    ∀ (bs : List Nat) (shs : List (List Nat)) (st : SplitState),
      tripCount (processBlocks sqrtFn sd si bs shs st) p = tripCount st p := by
  intro bs
  induction bs with
  | nil => intro shs st; rfl
  | cons b bs ih =>
    intro shs st
    rw [processBlocks, ih, tripCount_processBlock]
    simp [hne]

lemma tripCount_processBlocks (sqrtFn : ℚ → ℚ) (sd : SessionData) (si : Nat)
    (p : Nat × Nat × Nat) :
    ∀ (bs : List Nat) (shs : List (List Nat)) (st : SplitState), bs.Nodup →
      tripCount (processBlocks sqrtFn sd si bs shs st) p =
        tripCount st p +
          (if p.1 = si ∧ p.2.1 ∈ bs ∧ p.2.2 < numTrialsInBlock sd p.2.1 ∧
              blockLabel sd p.2.1 p.2.2 ≠ "doNothing" then 1 else 0) := by
  intro bs
  induction bs with
  | nil => intro shs st _; simp [processBlocks]
  | cons b bs ih =>
    intro shs st hnd
    rw [processBlocks, ih _ _ hnd.of_cons, tripCount_processBlock]
    rcases p with ⟨p1, p2, p3⟩
    simp only at *
    by_cases h1 : p1 = si
    · by_cases h2 : p2 = b
      · subst h2
        have hnb : p2 ∉ bs := (List.nodup_cons.mp hnd).1
        by_cases h3 : p3 < numTrialsInBlock sd p2
        · by_cases h4 : blockLabel sd p2 p3 = "doNothing"
          · simp [h1, h3, h4, hnb]
          · simp [h1, h3, h4, hnb]
        · simp [h1, h3, hnb]
      · simp [h1, h2, List.mem_cons]
    · simp [h1]

lemma mem_allSets_processSessions {e : TrialEntry} (sqrtFn : ℚ → ℚ) :
    ∀ (sessions : List SessionData) (shs : List (List (List Nat))) (k : Nat)
      (st : SplitState),
      e ∈ allSets (processSessions sqrtFn sessions shs k st) ↔
        e ∈ allSets st ∨ ∃ j sd, sessions.get? j = some sd ∧
          ∃ bi b, sd.blockList.get? bi = some b ∧
            ∃ i, i < numTrialsInBlock sd b ∧ blockLabel sd b i ≠ "doNothing" ∧
              e = mkEntry (blockCtx sqrtFn sd (k + j) b ((shs.getD j []).getD bi [])) i := by
  intro sessions
  induction sessions with
  | nil => intro shs k st; simp [processSessions]
  | cons sd rest ih =>
    intro shs k st
    rw [processSessions, ih, mem_allSets_processBlocks]
    constructor
    · rintro ((h | ⟨bi, b, hb, i, hi, h1, h2⟩) | ⟨j, sd', hs, bi, b, hb, i, hi, h1, h2⟩)
      · exact Or.inl h
      · refine Or.inr ⟨0, sd, rfl, bi, b, hb, i, hi, h1, ?_⟩
        rw [h2, headD_eq_getD, Nat.add_zero]
      · refine Or.inr ⟨j + 1, sd', by simpa using hs, bi, b, hb, i, hi, h1, ?_⟩
        rw [h2, tail_getD]
        congr 2
        omega
    · rintro (h | ⟨j, sd', hs, bi, b, hb, i, hi, h1, h2⟩)
      · exact Or.inl (Or.inl h)
      · match j, hs with
        | 0, hs =>
            have hss : sd' = sd := by simpa using hs.symm
            subst hss
            refine Or.inl (Or.inr ⟨bi, b, hb, i, hi, h1, ?_⟩)
            rw [h2, headD_eq_getD, Nat.add_zero]
        | j + 1, hs =>
            refine Or.inr ⟨j, sd', by simpa using hs, bi, b, hb, i, hi, h1, ?_⟩
            rw [h2, tail_getD]
            congr 2
            omega

lemma tripCount_processSessions_lt (sqrtFn : ℚ → ℚ) (p : Nat × Nat × Nat) :
    ∀ (sessions : List SessionData) (shs : List (List (List Nat))) (k : Nat)
      (st : SplitState), p.1 < k →
      tripCount (processSessions sqrtFn sessions shs k st) p = tripCount st p := by
  intro sessions
  induction sessions with
  | nil => intro shs k st _; rfl
  | cons sd rest ih =>
    intro shs k st hk
    rw [processSessions, ih _ _ _ (by omega),
      tripCount_processBlocks_ne sqrtFn sd k p (by omega)]

lemma tripCount_processSessions_le_one (sqrtFn : ℚ → ℚ) (p : Nat × Nat × Nat) :
    ∀ (sessions : List SessionData) (shs : List (List (List Nat))) (k : Nat)
      (st : SplitState),
      (∀ sd ∈ sessions, sd.blockList.Nodup) → tripCount st p = 0 →
      tripCount (processSessions sqrtFn sessions shs k st) p ≤ 1 := by
  intro sessions
  induction sessions with
  | nil => intro shs k st _ h0; simp [processSessions, h0]
  | cons sd rest ih =>
    intro shs k st hnd h0
    rw [processSessions]
    by_cases hk : p.1 = k
    · rw [tripCount_processSessions_lt sqrtFn p rest shs.tail (k + 1) _ (by omega),
        tripCount_processBlocks sqrtFn sd k p sd.blockList (shs.headD []) st
          (hnd sd (by simp)), h0]
      split <;> omega
    · refine ih shs.tail (k + 1) _ (fun sd' hs => hnd sd' (by simp [hs])) ?_
      rw [tripCount_processBlocks_ne sqrtFn sd k p hk]
      exact h0

/-! The greedy balancing invariant and the per-block validation/test label
counts. -/

lemma cInv_initState : cInv initState := by
  intro L
  simp [initState]

lemma cInv_processTrial (ctx : BlockCtx) (st : SplitState) (i : Nat)
    (h : cInv st) : cInv (processTrial ctx st i) := by
  unfold processTrial
  by_cases hrest : trialLabel ctx i = "doNothing"
  · simpa [hrest] using h
  · by_cases ht : i ∈ ctx.trainIdxs
    · simp only [if_neg hrest, if_pos ht]
      exact h
    · by_cases hc : st.valCount (trialLabel ctx i) < st.testCount (trialLabel ctx i)
      · simp only [if_neg hrest, if_neg ht, if_pos hc]
        intro L
        have hL := h L
        have hl2 := h (trialLabel ctx i)
        by_cases hLl : L = trialLabel ctx i
        · subst hLl
          simp [bump]
          omega
        · simp only [bump, if_neg hLl]
          exact hL
      · simp only [if_neg hrest, if_neg ht, if_neg hc]
        intro L
        have hL := h L
        have hl2 := h (trialLabel ctx i)
        by_cases hLl : L = trialLabel ctx i
        · subst hLl
          simp [bump]
          omega
        · simp only [bump, if_neg hLl]
          exact hL

lemma cInv_trialLoop (ctx : BlockCtx) :
    ∀ (n : Nat) (st : SplitState), cInv st →
      cInv ((List.range n).foldl (processTrial ctx) st) := by
  intro n
  induction n with
  | zero => intro st h; simpa using h
  | succ n ih =>
    intro st h
    rw [List.range_succ, List.foldl_append]
    simp only [List.foldl_cons, List.foldl_nil]
    exact cInv_processTrial _ _ _ (ih st h)

lemma cInv_processBlock (sqrtFn : ℚ → ℚ) (sd : SessionData) (si b : Nat)
    (sh : List Nat) (st : SplitState) (h : cInv st) :
    cInv (processBlock sqrtFn sd si b sh st) :=
  cInv_trialLoop _ _ _ h

lemma cInv_processBlocks (sqrtFn : ℚ → ℚ) (sd : SessionData) (si : Nat) :
    ∀ (bs : List Nat) (shs : List (List Nat)) (st : SplitState), cInv st →
      cInv (processBlocks sqrtFn sd si bs shs st) := by
  intro bs
  induction bs with
  | nil => intro shs st h; exact h
  | cons b bs ih =>
    intro shs st h
    exact ih _ _ (cInv_processBlock _ _ _ _ _ _ h)

lemma cInv_processSessions (sqrtFn : ℚ → ℚ) :
    ∀ (sessions : List SessionData) (shs : List (List (List Nat))) (k : Nat)
      (st : SplitState), cInv st →
      cInv (processSessions sqrtFn sessions shs k st) := by
  intro sessions
  induction sessions with
  | nil => intro shs k st h; exact h
  | cons sd rest ih =>
    intro shs k st h
    exact ih _ _ _ (cInv_processBlocks _ _ _ _ _ _ h)

lemma fv_processTrial (ctx : BlockCtx) (st : SplitState) (i : Nat) (L : String) :
    fvCount (processTrial ctx st i) ctx.sessionIdx ctx.blockNum L + st.valCount L =
      fvCount st ctx.sessionIdx ctx.blockNum L + (processTrial ctx st i).valCount L := by
  unfold processTrial
  by_cases hrest : trialLabel ctx i = "doNothing"
  · simp [hrest]
  · by_cases ht : i ∈ ctx.trainIdxs
    · simp only [if_neg hrest, if_pos ht]
      simp [fvCount]
    · by_cases hc : st.valCount (trialLabel ctx i) < st.testCount (trialLabel ctx i)
      · simp only [if_neg hrest, if_neg ht, if_pos hc]
        by_cases hLl : trialLabel ctx i = L
        · simp [fvCount, countP_snoc, mkEntry, bump, hLl]
          omega
        · have hLl2 : ¬(L = trialLabel ctx i) := fun hx => hLl hx.symm
          simp [fvCount, countP_snoc, mkEntry, bump, hLl, hLl2]
      · simp only [if_neg hrest, if_neg ht, if_neg hc]
        simp [fvCount]

lemma ft_processTrial (ctx : BlockCtx) (st : SplitState) (i : Nat) (L : String) :
    ftCount (processTrial ctx st i) ctx.sessionIdx ctx.blockNum L + st.testCount L =
      ftCount st ctx.sessionIdx ctx.blockNum L + (processTrial ctx st i).testCount L := by
  unfold processTrial
  by_cases hrest : trialLabel ctx i = "doNothing"
  · simp [hrest]
  · by_cases ht : i ∈ ctx.trainIdxs
    · simp only [if_neg hrest, if_pos ht]
      simp [ftCount]
    · by_cases hc : st.valCount (trialLabel ctx i) < st.testCount (trialLabel ctx i)
      · simp only [if_neg hrest, if_neg ht, if_pos hc]
        simp [ftCount]
      · simp only [if_neg hrest, if_neg ht, if_neg hc]
        by_cases hLl : trialLabel ctx i = L
        · simp [ftCount, countP_snoc, mkEntry, bump, hLl]
          omega
        · have hLl2 : ¬(L = trialLabel ctx i) := fun hx => hLl hx.symm
          simp [ftCount, countP_snoc, mkEntry, bump, hLl, hLl2]

lemma fvft_processTrial_other (ctx : BlockCtx) (st : SplitState) (i : Nat)
    (s b : Nat) (L : String) (hne : ¬(ctx.sessionIdx = s ∧ ctx.blockNum = b)) :
    fvCount (processTrial ctx st i) s b L = fvCount st s b L ∧
      ftCount (processTrial ctx st i) s b L = ftCount st s b L := by
  unfold processTrial
  by_cases hrest : trialLabel ctx i = "doNothing"
  · simp [hrest]
  · by_cases ht : i ∈ ctx.trainIdxs
    · simp only [if_neg hrest, if_pos ht]
      exact ⟨rfl, rfl⟩
    · by_cases hc : st.valCount (trialLabel ctx i) < st.testCount (trialLabel ctx i)
      · simp only [if_neg hrest, if_neg ht, if_pos hc]
        refine ⟨?_, rfl⟩
        simp only [fvCount, countP_snoc, mkEntry]
        have : ¬(ctx.sessionIdx = s ∧ ctx.blockNum = b ∧ trialLabel ctx i = L) := by
          intro hx
          exact hne ⟨hx.1, hx.2.1⟩
        simp [this]
      · simp only [if_neg hrest, if_neg ht, if_neg hc]
        refine ⟨rfl, ?_⟩
        simp only [ftCount, countP_snoc, mkEntry]
        have : ¬(ctx.sessionIdx = s ∧ ctx.blockNum = b ∧ trialLabel ctx i = L) := by
          intro hx
          exact hne ⟨hx.1, hx.2.1⟩
        simp [this]

lemma fv_trialLoop (ctx : BlockCtx) (L : String) :
    ∀ (n : Nat) (st : SplitState),
      fvCount ((List.range n).foldl (processTrial ctx) st) ctx.sessionIdx ctx.blockNum L
          + st.valCount L =
        fvCount st ctx.sessionIdx ctx.blockNum L
          + ((List.range n).foldl (processTrial ctx) st).valCount L := by
  intro n
  induction n with
  | zero => simp
  | succ n ih =>
    intro st
    rw [List.range_succ, List.foldl_append]
    simp only [List.foldl_cons, List.foldl_nil]
    have h1 := fv_processTrial ctx ((List.range n).foldl (processTrial ctx) st) n L
    have h2 := ih st
    omega

lemma ft_trialLoop (ctx : BlockCtx) (L : String) :
    ∀ (n : Nat) (st : SplitState),
      ftCount ((List.range n).foldl (processTrial ctx) st) ctx.sessionIdx ctx.blockNum L
          + st.testCount L =
        ftCount st ctx.sessionIdx ctx.blockNum L
          + ((List.range n).foldl (processTrial ctx) st).testCount L := by
  intro n
  induction n with
  | zero => simp
  | succ n ih =>
    intro st
    rw [List.range_succ, List.foldl_append]
    simp only [List.foldl_cons, List.foldl_nil]
    have h1 := ft_processTrial ctx ((List.range n).foldl (processTrial ctx) st) n L
    have h2 := ih st
    omega

lemma fvft_trialLoop_other (ctx : BlockCtx) (s b : Nat) (L : String)
    (hne : ¬(ctx.sessionIdx = s ∧ ctx.blockNum = b)) :
    ∀ (n : Nat) (st : SplitState),
      fvCount ((List.range n).foldl (processTrial ctx) st) s b L = fvCount st s b L ∧
        ftCount ((List.range n).foldl (processTrial ctx) st) s b L = ftCount st s b L := by
  intro n
  induction n with
  | zero => simp
  | succ n ih =>
    intro st
    rw [List.range_succ, List.foldl_append]
    simp only [List.foldl_cons, List.foldl_nil]
    have h1 := fvft_processTrial_other ctx ((List.range n).foldl (processTrial ctx) st) n s b L hne
    have h2 := ih st
    exact ⟨h1.1.trans h2.1, h1.2.trans h2.2⟩

lemma fv_processBlock (sqrtFn : ℚ → ℚ) (sd : SessionData) (si b : Nat)
    (sh : List Nat) (st : SplitState) (L : String) :
    fvCount (processBlock sqrtFn sd si b sh st) si b L + st.valCount L =
      fvCount st si b L + (processBlock sqrtFn sd si b sh st).valCount L :=
  fv_trialLoop (blockCtx sqrtFn sd si b sh) L (numTrialsInBlock sd b) st

lemma ft_processBlock (sqrtFn : ℚ → ℚ) (sd : SessionData) (si b : Nat)
    (sh : List Nat) (st : SplitState) (L : String) :
    ftCount (processBlock sqrtFn sd si b sh st) si b L + st.testCount L =
      ftCount st si b L + (processBlock sqrtFn sd si b sh st).testCount L :=
  ft_trialLoop (blockCtx sqrtFn sd si b sh) L (numTrialsInBlock sd b) st

lemma fvft_processBlock_other (sqrtFn : ℚ → ℚ) (sd : SessionData) (si b : Nat)
    (sh : List Nat) (st : SplitState) (s bT : Nat) (L : String)
    (hne : ¬(si = s ∧ b = bT)) :
    fvCount (processBlock sqrtFn sd si b sh st) s bT L = fvCount st s bT L ∧
      ftCount (processBlock sqrtFn sd si b sh st) s bT L = ftCount st s bT L :=
  fvft_trialLoop_other (blockCtx sqrtFn sd si b sh) s bT L hne
    (numTrialsInBlock sd b) st

lemma fvft_processBlocks_other (sqrtFn : ℚ → ℚ) (sd : SessionData) (si : Nat)
    (s bT : Nat) (L : String) :
    ∀ (bs : List Nat) (shs : List (List Nat)) (st : SplitState),
      (si ≠ s ∨ bT ∉ bs) →
      fvCount (processBlocks sqrtFn sd si bs shs st) s bT L = fvCount st s bT L ∧
        ftCount (processBlocks sqrtFn sd si bs shs st) s bT L = ftCount st s bT L := by
  intro bs
  induction bs with
  | nil => intro shs st _; exact ⟨rfl, rfl⟩
  | cons b bs ih =>
    intro shs st h
    have hne : ¬(si = s ∧ b = bT) := by
      rcases h with h | h
      · exact fun hx => h hx.1
      · exact fun hx => h (by rw [← hx.2]; exact List.mem_cons_self b bs)
    have h1 := fvft_processBlock_other sqrtFn sd si b (shs.headD []) st s bT L hne
    have h2 := ih shs.tail (processBlock sqrtFn sd si b (shs.headD []) st)
      (by rcases h with h | h
          · exact Or.inl h
          · exact Or.inr (fun hx => h (List.mem_cons_of_mem b hx)))
    rw [processBlocks]
    exact ⟨h2.1.trans h1.1, h2.2.trans h1.2⟩

lemma fvft_processSessions_lt (sqrtFn : ℚ → ℚ) (s bT : Nat) (L : String) :
    ∀ (sessions : List SessionData) (shs : List (List (List Nat))) (k : Nat)
      (st : SplitState), s < k →
      fvCount (processSessions sqrtFn sessions shs k st) s bT L = fvCount st s bT L ∧
        ftCount (processSessions sqrtFn sessions shs k st) s bT L = ftCount st s bT L := by
  intro sessions
  induction sessions with
  | nil => intro shs k st _; exact ⟨rfl, rfl⟩
  | cons sd rest ih =>
    intro shs k st hk
    rw [processSessions]
    have h1 := fvft_processBlocks_other sqrtFn sd k s bT L sd.blockList (shs.headD []) st
      (Or.inl (by omega))
    have h2 := ih shs.tail (k + 1)
      (processBlocks sqrtFn sd k sd.blockList (shs.headD []) st) (by omega)
    exact ⟨h2.1.trans h1.1, h2.2.trans h1.2⟩

lemma C3_processBlock_bounds (sqrtFn : ℚ → ℚ) (sd : SessionData) (si b : Nat)
    (sh : List Nat) (st : SplitState) (L : String)
    (hinv : cInv st) (hv : fvCount st si b L = 0) (ht0 : ftCount st si b L = 0) :
    fvCount (processBlock sqrtFn sd si b sh st) si b L ≤
        ftCount (processBlock sqrtFn sd si b sh st) si b L + 1 ∧
      ftCount (processBlock sqrtFn sd si b sh st) si b L ≤
        fvCount (processBlock sqrtFn sd si b sh st) si b L + 1 := by
  have h1 := fv_processBlock sqrtFn sd si b sh st L
  have h2 := ft_processBlock sqrtFn sd si b sh st L
  have h3 := hinv L
  have h4 := (cInv_processBlock sqrtFn sd si b sh st hinv) L
  omega

lemma C3_processBlocks_bounds (sqrtFn : ℚ → ℚ) (sd : SessionData) (s bT : Nat)
    (L : String) :
    ∀ (bs : List Nat) (shs : List (List Nat)) (st : SplitState),
      bs.Nodup → bT ∈ bs → cInv st →
      fvCount st s bT L = 0 → ftCount st s bT L = 0 →
      fvCount (processBlocks sqrtFn sd s bs shs st) s bT L ≤
          ftCount (processBlocks sqrtFn sd s bs shs st) s bT L + 1 ∧
        ftCount (processBlocks sqrtFn sd s bs shs st) s bT L ≤
          fvCount (processBlocks sqrtFn sd s bs shs st) s bT L + 1 := by
  intro bs
  induction bs with
  | nil => intro shs st _ hmem; exact absurd hmem (List.not_mem_nil _)
  | cons b bs ih =>
    intro shs st hnd hmem hinv hv ht0
    rw [processBlocks]
    by_cases hb : b = bT
    · subst hb
      have hbounds := C3_processBlock_bounds sqrtFn sd s b (shs.headD []) st L hinv hv ht0
      have hnb : b ∉ bs := (List.nodup_cons.mp hnd).1
      have hother := fvft_processBlocks_other sqrtFn sd s s b L bs shs.tail
        (processBlock sqrtFn sd s b (shs.headD []) st) (Or.inr hnb)
      rw [hother.1, hother.2]
      exact hbounds
    · have hmem2 : bT ∈ bs := by
        rcases List.mem_cons.mp hmem with hx | hx
        · exact absurd hx.symm hb
        · exact hx
      have hother := fvft_processBlock_other sqrtFn sd s b (shs.headD []) st s bT L
        (fun hx => hb hx.2)
      exact ih shs.tail _ hnd.of_cons hmem2
        (cInv_processBlock sqrtFn sd s b (shs.headD []) st hinv)
        (hother.1.trans hv) (hother.2.trans ht0)

lemma C3_processSessions_bounds (sqrtFn : ℚ → ℚ) (bT : Nat) (L : String)
    (sd : SessionData) :
    ∀ (sessions : List SessionData) (shs : List (List (List Nat))) (k : Nat)
      (st : SplitState) (j : Nat),
      sessions.get? j = some sd → sd.blockList.Nodup → bT ∈ sd.blockList →
      cInv st → fvCount st (k + j) bT L = 0 → ftCount st (k + j) bT L = 0 →
      fvCount (processSessions sqrtFn sessions shs k st) (k + j) bT L ≤
          ftCount (processSessions sqrtFn sessions shs k st) (k + j) bT L + 1 ∧
        ftCount (processSessions sqrtFn sessions shs k st) (k + j) bT L ≤
          fvCount (processSessions sqrtFn sessions shs k st) (k + j) bT L + 1 := by
  intro sessions
  induction sessions with
  | nil => intro shs k st j hj; simp at hj
  | cons sd0 rest ih =>
    intro shs k st j hj hnd hmem hinv hv ht0
    rw [processSessions]
    match j, hj, hv, ht0 with
    | 0, hj, hv, ht0 =>
        have hsd : sd0 = sd := by simpa using hj
        subst hsd
        simp only [Nat.add_zero] at hv ht0
        simp only [Nat.add_zero]
        have hbounds := C3_processBlocks_bounds sqrtFn sd0 k bT L sd0.blockList
          (shs.headD []) st hnd hmem hinv hv ht0
        have hother := fvft_processSessions_lt sqrtFn k bT L rest shs.tail (k + 1)
          (processBlocks sqrtFn sd0 k sd0.blockList (shs.headD []) st) (by omega)
        rw [hother.1, hother.2]
        exact hbounds
    | j + 1, hj, hv, ht0 =>
        have hj2 : rest.get? j = some sd := by simpa using hj
        have hother := fvft_processBlocks_other sqrtFn sd0 k (k + (j + 1)) bT L
          sd0.blockList (shs.headD []) st (Or.inl (by omega))
        have harith : k + (j + 1) = (k + 1) + j := by omega
        simp only [harith] at hother hv ht0
        simp only [harith]
        exact ih shs.tail (k + 1) _ j hj2 hnd hmem
          (cInv_processBlocks sqrtFn sd0 k sd0.blockList (shs.headD []) st hinv)
          (hother.1.trans hv) (hother.2.trans ht0)

/-! Statistics over constant channels, and pointwise facts about z-scoring. -/

lemma sum_const_of_all_eq (l : List ℚ) (v : ℚ) (h : ∀ x ∈ l, x = v) :
    l.sum = l.length * v := by
  induction l with
  | nil => simp
  | cons a l ih =>
    have ha := h a (by simp)
    have ih2 := ih (fun x hx => h x (by simp [hx]))
    simp only [List.sum_cons, List.length_cons, ha, ih2]
    push_cast
    ring

lemma meanQ_const (ref : List (List ℚ)) (c : Nat) (v : ℚ) (hne : ref ≠ [])
    (h : ∀ row ∈ ref, row.getD c 0 = v) : meanQ ref c = v := by
  unfold meanQ
  have hlen : (colQ ref c).length = ref.length := by simp [colQ]
  have hsum : (colQ ref c).sum = (colQ ref c).length * v := by
    apply sum_const_of_all_eq
    intro x hx
    rcases List.mem_map.mp hx with ⟨row, hrow, rfl⟩
    exact h row hrow
  have hn : (ref.length : ℚ) ≠ 0 := by
    have : ref.length ≠ 0 := fun hz => hne (List.length_eq_zero.mp hz)
    exact_mod_cast this
  rw [hsum, hlen]
  field_simp

lemma varQ_const (ref : List (List ℚ)) (c : Nat) (v : ℚ) (hne : ref ≠ [])
    (h : ∀ row ∈ ref, row.getD c 0 = v) : varQ ref c = 0 := by
  unfold varQ
  have hm := meanQ_const ref c v hne h
  have hz : ((colQ ref c).map (fun x => (x - meanQ ref c) ^ 2)).sum = 0 := by
    apply List.sum_eq_zero
    intro x hx
    rcases List.mem_map.mp hx with ⟨y, hy, rfl⟩
    rcases List.mem_map.mp hy with ⟨row, hrow, rfl⟩
    rw [hm, h row hrow]
    simp
  rw [hz]
  simp

lemma zscoreVal_zero_std (m : NPVal) (x : ℚ) : zscoreVal m (.fin 0) x = 0 := by
  unfold zscoreVal
  cases m with
  | fin q =>
      by_cases h : x - q = 0
      · simp [npSub, npDiv, nanToNum, h]
      · by_cases h2 : 0 < x - q <;> simp [npSub, npDiv, nanToNum, h, h2]
  | nan => simp [npSub, npDiv, nanToNum]
  | posinf => simp [npSub, npDiv, nanToNum]
  | neginf => simp [npSub, npDiv, nanToNum]

lemma zscoreVal_fin (m s x : ℚ) (hs : s ≠ 0) :
    zscoreVal (.fin m) (.fin s) x = (x - m) / s := by
  simp [zscoreVal, npSub, npDiv, hs, nanToNum]

lemma zscoreRow_getD (means stds : Nat → NPVal) (row : List ℚ) (c : Nat) :
    (zscoreRow means stds row).getD c 0 =
      if c < row.length then zscoreVal (means c) (stds c) (row.getD c 0) else 0 := by
  unfold zscoreRow
  by_cases h : c < row.length
  · rw [if_pos h, List.getD_eq_getElem _ _ (by simpa using h)]
    simp
  · rw [if_neg h, List.getD_eq_default _ _ (by simpa using h)]

/-! Python slices of in-range windows are exactly the indexed bins. -/

lemma pySlice_eq_map_range' {α : Type} (l : List α) (d : α) (a b : Nat)
    (hab : a ≤ b) (hb : b ≤ l.length) :
    pySlice l a b = (List.range' a (b - a)).map (fun t => l.getD t d) := by
  apply List.ext_getElem?
  intro n
  by_cases hn : n < b - a
  · have hlt : a + n < l.length := by omega
    rw [pySlice, List.getElem?_take, if_pos hn, List.getElem?_drop, List.getElem?_map,
      List.getElem?_eq_getElem hlt]
    simp [List.getElem?_range', hn, List.getD_eq_getElem l d hlt,
      List.getElem?_eq_getElem hlt]
  · have h1 : (pySlice l a b).length ≤ n := by
      simp only [pySlice, List.length_take, List.length_drop]
      omega
    have h2 : ((List.range' a (b - a)).map (fun t => l.getD t d)).length ≤ n := by
      simp
      omega
    rw [List.getElem?_eq_none h1, List.getElem?_eq_none h2]

/-! Positional uniqueness in a duplicate-free block list. -/

lemma get?_inj_of_nodup {l : List Nat} (hnd : l.Nodup) {i j b : Nat}
    (hi : l.get? i = some b) (hj : l.get? j = some b) : i = j := by
  rw [List.get?_eq_some] at hi hj
  rcases hi with ⟨hi1, hi2⟩
  rcases hj with ⟨hj1, hj2⟩
  have h2 : l.get ⟨i, hi1⟩ = l.get ⟨j, hj1⟩ := by rw [hi2, hj2]
  have h3 := List.nodup_iff_injective_get.mp hnd h2
  exact congrArg Fin.val h3

/-! Membership in the final output sets, characterized. -/

lemma allSets_organize_mem {e : TrialEntry} (sqrtFn : ℚ → ℚ)
    (sessions : List SessionData) (shs : List (List (List Nat))) :
    e ∈ allSets (organize_data sqrtFn sessions shs) ↔
      ∃ j sd, sessions.get? j = some sd ∧
        ∃ bi b, sd.blockList.get? bi = some b ∧
          ∃ i, i < numTrialsInBlock sd b ∧ blockLabel sd b i ≠ "doNothing" ∧
            e = mkEntry (blockCtx sqrtFn sd j b ((shs.getD j []).getD bi [])) i := by
  unfold organize_data
  rw [mem_allSets_processSessions]
  simp [allSets, initState]

/-! The label codec. -/

lemma encode_of_mem : ∀ (l : List String) (x : String), x ∈ l →
    ∃ k, CHAR_TO_CLASS_MAP l x = some k ∧ l.get? k = some x := by
  intro l
  induction l with
  | nil => intro x hx; exact absurd hx (List.not_mem_nil x)
  | cons c cs ih =>
    intro x hx
    by_cases hxc : x = c
    · subst hxc
      exact ⟨0, by simp [CHAR_TO_CLASS_MAP], rfl⟩
    · rcases List.mem_cons.mp hx with h | h
      · exact absurd h hxc
      · rcases ih x h with ⟨k, hk, hget⟩
        refine ⟨k + 1, ?_, by simpa using hget⟩
        simp [CHAR_TO_CLASS_MAP, hxc, hk]

lemma encode_of_not_mem : ∀ (l : List String) (x : String), x ∉ l →
    CHAR_TO_CLASS_MAP l x = none := by
  intro l
  induction l with
  | nil => intro x _; rfl
  | cons c cs ih =>
    intro x hx
    have hxc : ¬x = c := fun h => hx (by simp [h])
    have hxs : x ∉ cs := fun h => hx (List.mem_cons_of_mem c h)
    simp [CHAR_TO_CLASS_MAP, hxc, ih x hxs]

lemma decode_encode_of_mem (l : List String) (x : String) (hx : x ∈ l) :
    (CHAR_TO_CLASS_MAP l x).bind (CLASS_TO_CHAR_MAP l) = some x := by
  rcases encode_of_mem l x hx with ⟨k, hk, hget⟩
  rw [hk]
  simpa [CLASS_TO_CHAR_MAP] using hget

lemma nodup_of_countP_le_one {α : Type} [DecidableEq α] :
    ∀ l : List α, (∀ a : α, l.countP (fun x => x = a) ≤ 1) → l.Nodup := by
  intro l
  induction l with
  | nil => intro _; exact List.nodup_nil
  | cons a l ih =>
    intro h
    rw [List.nodup_cons]
    constructor
    · intro hmem
      have ha := h a
      rw [List.countP_cons] at ha
      simp at ha
      exact ha a hmem rfl
    · apply ih
      intro b
      have hb := h b
      rw [List.countP_cons] at hb
      omega

/-! Claim theorems. -/

/-- C1: the claim says that a trial whose window range
`[go_cue + REACTION_TIME_BINS, go_cue + REACTION_TIME_BINS +
TRAINING_WINDOW_BINS)` leaves `[0, len(neural))` fails loudly
(WindowOutOfRangeError) and is excluded from all three output sets, never
silently included with a truncated window.  The code has no bounds check at
all: on `exData` (20 time bins, go cue at bin 5, so the window `[15, 165)`
extends 145 bins past the end of the recording) the Python slice silently
truncates to 5 bins and the trial is nevertheless assigned to the test set. -/
theorem C1_out_of_range_trial_included_truncated :
    exData.neural.length <
        (blockGo exData 7).getD 0 0 + REACTION_TIME_BINS + TRAINING_WINDOW_BINS ∧
      (organize_data sqrtZero [exData] [[[0]]]).trainSet = [] ∧
      (organize_data sqrtZero [exData] [[[0]]]).valSet = [] ∧
      (organize_data sqrtZero [exData] [[[0]]]).testSet.map
          (fun e => (trip e, e.window.length)) = [((0, 7, 0), 5)] := by
  decide

/-- C2 (counterexample): the claim says a non-train, non-rest trial goes to
validation when the validation and test counts for its label are equal.  On
`exData` the single trial (label "a", not train-designated, both counters
still 0) is assigned to the test set and validation stays empty. -/
theorem C2_tie_counterexample :
    (organize_data sqrtZero [exData] [[[0]]]).trainSet = [] ∧
      (organize_data sqrtZero [exData] [[[0]]]).valSet = [] ∧
      (organize_data sqrtZero [exData] [[[0]]]).testSet.map
          (fun e => (e.label, trip e)) = [("a", (0, 7, 0))] ∧
      (organize_data sqrtZero [exData] [[[0]]]).valCount "a" = 0 ∧
      (organize_data sqrtZero [exData] [[[0]]]).testCount "a" = 1 := by
  decide

/-- C2 (amended): a non-train, non-rest trial of label L is assigned to
validation exactly when validation's running count for L is strictly smaller
than test's, and otherwise — including when the two counts are equal — it is
assigned to test (whose counter is then bumped); ties go to test because the
code's branch sends to validation only on a strict inequality. -/
theorem C2_greedy_assignment (ctx : BlockCtx) (st : SplitState) (i : Nat)
    (hrest : trialLabel ctx i ≠ "doNothing") (ht : i ∉ ctx.trainIdxs) :
    (st.valCount (trialLabel ctx i) < st.testCount (trialLabel ctx i) →
      (processTrial ctx st i).valSet = st.valSet ++ [mkEntry ctx i] ∧
        (processTrial ctx st i).testSet = st.testSet ∧
        (processTrial ctx st i).valCount = bump st.valCount (trialLabel ctx i)) ∧
    (st.testCount (trialLabel ctx i) ≤ st.valCount (trialLabel ctx i) →
      (processTrial ctx st i).testSet = st.testSet ++ [mkEntry ctx i] ∧
        (processTrial ctx st i).valSet = st.valSet ∧
        (processTrial ctx st i).testCount = bump st.testCount (trialLabel ctx i)) := by
  constructor
  · intro hc
    simp [processTrial, hrest, ht, hc]
  · intro hc
    have hc2 : ¬st.valCount (trialLabel ctx i) < st.testCount (trialLabel ctx i) := by
      omega
    simp [processTrial, hrest, ht, hc2]

/-- C2 witness: at equal counters (the initial state) the trial goes to the
test set. -/
theorem C2_greedy_assignment_witness :
    (processTrial ctxA initState 0).testSet = initState.testSet ++ [mkEntry ctxA 0] ∧
      (processTrial ctxA initState 0).valSet = initState.valSet ∧
      (processTrial ctxA initState 0).testCount = bump initState.testCount (trialLabel ctxA 0) :=
  (C2_greedy_assignment ctxA initState 0 (by decide) (by decide)).2 (by decide)

/-- C3: for every block `(s, b)` of the input and every label L, the number
of that block's trials assigned to validation and the number assigned to
test differ by at most one after the full run, for any shuffle outcomes and
any square-root rounding — the global greedy counters strictly alternate
test/validation per label, and a block's trials form a contiguous stretch of
that alternation. -/
theorem C3_block_label_balance (sqrtFn : ℚ → ℚ) (sessions : List SessionData)
    (shs : List (List (List Nat))) (s : Nat) (sd : SessionData) (b : Nat)
    (hs : sessions.get? s = some sd) (hnd : sd.blockList.Nodup)
    (hb : b ∈ sd.blockList) (L : String) :
    fvCount (organize_data sqrtFn sessions shs) s b L ≤
        ftCount (organize_data sqrtFn sessions shs) s b L + 1 ∧
      ftCount (organize_data sqrtFn sessions shs) s b L ≤
        fvCount (organize_data sqrtFn sessions shs) s b L + 1 := by
  unfold organize_data
  have h := C3_processSessions_bounds sqrtFn b L sd sessions shs 0 initState s
    hs hnd hb cInv_initState (by simp [fvCount, initState]) (by simp [ftCount, initState])
  simpa using h

/-- C3 witness at the concrete `exData` run. -/
theorem C3_block_label_balance_witness :
    fvCount (organize_data sqrtZero [exData] [[[0]]]) 0 7 "a" ≤
        ftCount (organize_data sqrtZero [exData] [[[0]]]) 0 7 "a" + 1 ∧
      ftCount (organize_data sqrtZero [exData] [[[0]]]) 0 7 "a" ≤
        fvCount (organize_data sqrtZero [exData] [[[0]]]) 0 7 "a" + 1 :=
  C3_block_label_balance sqrtZero [exData] [[[0]]] 0 exData 7 rfl (by decide)
    (by decide) "a"

/-- C5: if a channel `c` is constant (value `v`) over a block's nonempty
reference window, then — because the variance is exactly 0 and the IEEE
square root of 0 is 0 — every entry the pipeline produced for that block has
z-scored value exactly 0 at channel `c` of every time bin (the nan/inf from
the zero division is neutralized by nan_to_num), while a channel whose
standard deviation is nonzero is z-scored as `(sample - mean) / stddev`. -/
theorem C5_zero_variance_channel (sqrtFn : ℚ → ℚ) (sessions : List SessionData)
    (shs : List (List (List Nat))) (s : Nat) (sd : SessionData) (bi b c : Nat) (v : ℚ)
    (h0 : sqrtFn 0 = 0)
    (hs : sessions.get? s = some sd)
    (hbi : sd.blockList.get? bi = some b)
    (hnd : sd.blockList.Nodup)
    (href : blockReference sd b ((shs.getD s []).getD bi []) ≠ [])
    (hconst : ∀ row ∈ blockReference sd b ((shs.getD s []).getD bi []), row.getD c 0 = v) :
    (∀ e ∈ allSets (organize_data sqrtFn sessions shs),
        e.sessionIdx = s → e.blockNum = b → ∀ row ∈ e.window, row.getD c 0 = 0) ∧
    (∀ (c2 : Nat) (r : List ℚ), c2 < r.length →
        sqrtFn (varQ (blockReference sd b ((shs.getD s []).getD bi [])) c2) ≠ 0 →
        (zscoreRow (npMean (blockReference sd b ((shs.getD s []).getD bi [])))
            (npStd sqrtFn (blockReference sd b ((shs.getD s []).getD bi []))) r).getD c2 0 =
          (r.getD c2 0 - meanQ (blockReference sd b ((shs.getD s []).getD bi [])) c2) /
            sqrtFn (varQ (blockReference sd b ((shs.getD s []).getD bi [])) c2)) := by
  have hlen0 : ¬(blockReference sd b ((shs.getD s []).getD bi [])).length = 0 :=
    fun hz => href (List.length_eq_zero.mp hz)
  constructor
  · intro e he hsi hbn
    rw [allSets_organize_mem] at he
    rcases he with ⟨j, sd2, hs2, bi2, b2, hbi2, i, hi, hlbl, heq⟩
    subst heq
    have hj : j = s := hsi
    have hb2 : b2 = b := hbn
    rw [hj] at hs2 ⊢
    rw [hb2] at hbi2 ⊢
    rw [hs] at hs2
    injection hs2 with hsd2
    rw [← hsd2] at hbi2 ⊢
    have hbi3 : bi2 = bi := get?_inj_of_nodup hnd hbi2 hbi
    rw [hbi3]
    intro row hrow
    simp only [mkEntry, zscoreWindow, blockCtx] at hrow
    rcases List.mem_map.mp hrow with ⟨r, hr, rfl⟩
    rw [zscoreRow_getD]
    by_cases hc2 : c < r.length
    · rw [if_pos hc2]
      have hstd : npStd sqrtFn (blockReference sd b ((shs.getD s []).getD bi [])) c =
          .fin 0 := by
        rw [npStd, if_neg hlen0,
          varQ_const (blockReference sd b ((shs.getD s []).getD bi [])) c v href hconst, h0]
      rw [hstd]
      exact zscoreVal_zero_std _ _
    · rw [if_neg hc2]
  · intro c2 r hcr hsv
    rw [zscoreRow_getD, if_pos hcr]
    rw [npMean, if_neg hlen0, npStd, if_neg hlen0]
    exact zscoreVal_fin _ _ _ hsv

/-- C5 witness on `sdC5`: channel 0 of the produced train window is all
zeros; channel 1 (variance 1) follows the z-score formula. -/
theorem C5_zero_variance_channel_witness :
    (eC5.window.getD 0 []).getD 0 0 = 0 ∧
      (zscoreRow (npMean refC5) (npStd sqrtC5 refC5) [4, 4]).getD 1 0 =
        (([4, 4] : List ℚ).getD 1 0 - meanQ refC5 1) / sqrtC5 (varQ refC5 1) := by
  have h := C5_zero_variance_channel sqrtC5 [sdC5] [[[0, 1]]] 0 sdC5 0 7 0 5
    (of_decide_eq_true (by with_unfolding_all rfl)) rfl rfl (by decide)
    (of_decide_eq_true (by with_unfolding_all rfl))
    (of_decide_eq_true (by with_unfolding_all rfl))
  exact ⟨h.1 eC5 (of_decide_eq_true (by with_unfolding_all rfl)) rfl rfl
      (eC5.window.getD 0 []) (of_decide_eq_true (by with_unfolding_all rfl)),
    h.2 1 [4, 4] (by decide) (of_decide_eq_true (by with_unfolding_all rfl))⟩

/-- C6: a selected (train-designated) trial contributes to the reference
accumulation exactly the session bins from its own delay cue up to the next
trial's delay cue, and the last trial of the block contributes nothing; the
block reference window is the concatenation of these contributions. -/
theorem C6_reference_contribution (sd : SessionData) (b : Nat) (sh : List Nat)
    (i : Nat) :
    (blockReference sd b sh =
        ((trainTrialIdxs sd b sh).map
          (trialRefContribution sd.neural (blockDelay sd b))).flatten) ∧
      (i + 1 < numTrialsInBlock sd b →
        (blockDelay sd b).getD i 0 ≤ (blockDelay sd b).getD (i + 1) 0 →
        (blockDelay sd b).getD (i + 1) 0 ≤ sd.neural.length →
        trialRefContribution sd.neural (blockDelay sd b) i =
          (List.range' ((blockDelay sd b).getD i 0)
              ((blockDelay sd b).getD (i + 1) 0 - (blockDelay sd b).getD i 0)).map
            (fun t => sd.neural.getD t [])) ∧
      (numTrialsInBlock sd b ≤ i + 1 →
        trialRefContribution sd.neural (blockDelay sd b) i = []) := by
  have hlen : (blockDelay sd b).length = numTrialsInBlock sd b := by
    simp [blockDelay, numTrialsInBlock]
  refine ⟨rfl, ?_, ?_⟩
  · intro hi hab hb2
    rw [trialRefContribution, if_neg (by omega)]
    exact pySlice_eq_map_range' sd.neural [] _ _ hab hb2
  · intro hi
    rw [trialRefContribution, if_pos (by omega)]

/-- C6 witness on `sdC5`: trial 0 contributes bins `[0, 2)`; trial 1 (last
trial of the block) contributes nothing. -/
theorem C6_reference_contribution_witness :
    trialRefContribution sdC5.neural (blockDelay sdC5 7) 0 =
        (List.range' ((blockDelay sdC5 7).getD 0 0)
            ((blockDelay sdC5 7).getD 1 0 - (blockDelay sdC5 7).getD 0 0)).map
          (fun t => sdC5.neural.getD t []) ∧
      trialRefContribution sdC5.neural (blockDelay sdC5 7) 1 = [] :=
  ⟨(C6_reference_contribution sdC5 7 [0, 1] 0).2.1 (by decide) (by decide) (by decide),
   (C6_reference_contribution sdC5 7 [0, 1] 1).2.2 (by decide)⟩

/-- C7: no entry of any of the three output sets carries the rest label
`doNothing`, and a rest trial leaves the splitter state — sets and both
balancing counters — entirely unchanged. -/
theorem C7_rest_trials_excluded (sqrtFn : ℚ → ℚ) (sessions : List SessionData)
    (shs : List (List (List Nat))) :
    (∀ e ∈ allSets (organize_data sqrtFn sessions shs), e.label ≠ "doNothing") ∧
    (∀ (ctx : BlockCtx) (st : SplitState) (i : Nat),
      trialLabel ctx i = "doNothing" → processTrial ctx st i = st) := by
  constructor
  · intro e he
    rw [allSets_organize_mem] at he
    rcases he with ⟨j, sd, _, bi, b, _, i, _, hlbl, rfl⟩
    exact hlbl
  · exact processTrial_rest

/-- C7 witness: the `exData` test entry is not rest-labeled; a rest trial is
a no-op on the state. -/
theorem C7_rest_trials_excluded_witness :
    eExcl.label ≠ "doNothing" ∧ processTrial ctxRest initState 0 = initState := by
  have h := C7_rest_trials_excluded sqrtZero [exData] [[[0]]]
  exact ⟨h.1 eExcl (of_decide_eq_true (by with_unfolding_all rfl)),
    h.2 ctxRest initState 0 (by decide)⟩

/-- C8: across a full run, the three output sets' provenance triples
(session index, block number, in-block trial index) contain no duplicates:
each trial is appended to at most one set, provided each session's block
list has no repeated block id. -/
theorem C8_no_duplicate_provenance (sqrtFn : ℚ → ℚ) (sessions : List SessionData)
    (shs : List (List (List Nat)))
    (hnd : ∀ sd ∈ sessions, sd.blockList.Nodup) :
    ((allSets (organize_data sqrtFn sessions shs)).map trip).Nodup := by
  apply nodup_of_countP_le_one
  intro p
  rw [List.countP_map]
  exact tripCount_processSessions_le_one sqrtFn p sessions shs 0 initState hnd
    (by simp [tripCount, allSets, initState])

/-- C8 witness at the concrete `exData` run. -/
theorem C8_no_duplicate_provenance_witness :
    ((allSets (organize_data sqrtZero [exData] [[[0]]])).map trip).Nodup :=
  C8_no_duplicate_provenance sqrtZero [exData] [[[0]]] (by decide)

/-- C9: the label codec is a round-trip bijection on each closed label set
(`decode (encode c) = c` for every enumerated label, in both the
classification variant and the with-rest visualization variant), and
encoding any label outside the set yields no class (the Python dict lookup
raises, a fatal error). -/
theorem C9_label_codec_roundtrip (c : String) :
    (c ∈ ALL_CHARS →
      (CHAR_TO_CLASS_MAP ALL_CHARS c).bind (CLASS_TO_CHAR_MAP ALL_CHARS) = some c) ∧
    (c ∉ ALL_CHARS → CHAR_TO_CLASS_MAP ALL_CHARS c = none) ∧
    (c ∈ ALL_CHARS_WITH_REST →
      (CHAR_TO_CLASS_MAP ALL_CHARS_WITH_REST c).bind
        (CLASS_TO_CHAR_MAP ALL_CHARS_WITH_REST) = some c) ∧
    (c ∉ ALL_CHARS_WITH_REST → CHAR_TO_CLASS_MAP ALL_CHARS_WITH_REST c = none) :=
  ⟨decode_encode_of_mem ALL_CHARS c, encode_of_not_mem ALL_CHARS c,
   decode_encode_of_mem ALL_CHARS_WITH_REST c, encode_of_not_mem ALL_CHARS_WITH_REST c⟩

/-- C9 witness at concrete labels. -/
theorem C9_label_codec_roundtrip_witness :
    (CHAR_TO_CLASS_MAP ALL_CHARS "q").bind (CLASS_TO_CHAR_MAP ALL_CHARS) = some "q" ∧
      CHAR_TO_CLASS_MAP ALL_CHARS "A" = none ∧
      (CHAR_TO_CLASS_MAP ALL_CHARS_WITH_REST "doNothing").bind
        (CLASS_TO_CHAR_MAP ALL_CHARS_WITH_REST) = some "doNothing" ∧
      CHAR_TO_CLASS_MAP ALL_CHARS_WITH_REST "A" = none :=
  ⟨(C9_label_codec_roundtrip "q").1 (by decide),
   (C9_label_codec_roundtrip "A").2.1 (by decide),
   (C9_label_codec_roundtrip "doNothing").2.2.1 (by decide),
   (C9_label_codec_roundtrip "A").2.2.2 (by decide)⟩

/-- C10: z-scoring after windowing (the classification pipeline's order)
produces exactly the same feature window as windowing already z-scored
samples (the visualization pipeline's order), for the same per-channel mean
and stddev vectors, in both windowing modes — elementwise z-scoring commutes
with slicing. -/
theorem C10_zscore_window_commute (means stds : Nat → NPVal)
    (neural : List (List ℚ)) (goCue : Nat) :
    zscoreWindow means stds (classifyWindow neural goCue) =
        classifyWindow (zscoreWindow means stds neural) goCue ∧
      zscoreWindow means stds (visualizeWindow neural goCue) =
        visualizeWindow (zscoreWindow means stds neural) goCue := by
  constructor
  · simp [classifyWindow, zscoreWindow, pySlice, List.map_take, List.map_drop]
  · simp [visualizeWindow, zscoreWindow, pySliceInt, pySlice, List.map_take,
      List.map_drop]
